import Mathlib

/-!
Verification development for the `plm_pruning` supernet / pruning core.

The Python source is shallowly embedded: numpy/torch integer quantities become
`Nat`/`Int`, tensors become (nested) lists, mask tensors become `List Int`
rows (the masks are binary 0/1 grids), and the hook-registration machinery is
modelled by explicit lists of installed interception handles / hook kinds.
-/

namespace PLMPruning

/-! ### Estimator — embedded from `src/estimate_efficency.py` -/

/-- `mac_per_head` (estimate_efficency.py:5-14): QKV projection cost plus
attention-score cost plus output-projection cost for one attention head. -/
def mac_per_head (seq_len hidden_size attention_head_size : Nat) : Nat :=
  3 * seq_len * hidden_size * attention_head_size
    + 2 * seq_len * seq_len * attention_head_size
    + seq_len * attention_head_size * hidden_size

/-- `mac_per_neuron` (estimate_efficency.py:17-18). -/
def mac_per_neuron (seq_len hidden_size : Nat) : Nat :=
  2 * seq_len * hidden_size

/-- `compute_mac` (estimate_efficency.py:21-35): accumulates, over the zip of
the per-layer head counts and per-layer neuron counts, the attention MAC plus
the feed-forward MAC.  The Python accumulator is a float initialised to `0.0`;
all summands are products of integers, so it is embedded over `Nat`. -/
def compute_mac (num_heads_per_layer num_neurons_per_layer : List Nat)
    (seq_len hidden_size attention_head_size : Nat) : Nat :=
  (num_heads_per_layer.zip num_neurons_per_layer).foldl
    (fun mac p =>
      mac + p.1 * mac_per_head seq_len hidden_size attention_head_size
        + p.2 * mac_per_neuron seq_len hidden_size) 0

/-- `compute_parameters` (estimate_efficency.py:38-101): per-layer closed-form
parameter count, branching on `model_type == "llama"` for the layer-norm size
and for the attention / feed-forward formulas; layers with zero heads (resp.
zero neurons) contribute zero for the attention (resp. feed-forward) term. -/
def compute_parameters (dmodel dhead : Nat)
    (num_heads_per_layer num_neurons_per_layer : List Nat)
    (model_type : String) : Nat :=
  (num_heads_per_layer.zip num_neurons_per_layer).foldl
    (fun num_parameters p =>
      let n_layer_norm := if model_type = "llama" then dmodel else 2 * dmodel
      let n_layer_norm_count := 2
      let n_attention :=
        if 0 < p.1 then
          (if model_type = "llama" then
            dmodel * dhead * p.1 * 3 + dmodel * dmodel
          else
            (dmodel * dhead + dhead) * p.1 * 3 + (dmodel * dmodel + dmodel))
            + n_layer_norm * n_layer_norm_count
        else 0
      let n_ffn :=
        if 0 < p.2 then
          (if model_type = "llama" then
            dmodel * p.2 + dmodel * p.2 + p.2 * dmodel
          else
            2 * dmodel * p.2 + (dmodel + p.2))
            + n_layer_norm * n_layer_norm_count
        else 0
      num_parameters + n_attention + n_ffn) 0

/-! ### Masking engine — embedded from `src/model_wrapper/mask/mask_llama.py` -/

/-- `tensor.shape[1]` of a 2-D mask: the common width of its rows, read off
the first row (torch tensors are rectangular). -/
def rowWidth (m : List (List Int)) : Nat := (m.headD []).length

/-- Derived key/value head mask (`register_gqa_mask`, mask_llama.py:126-137):
the mask starts as all ones over the `num_kv_heads` KV heads, and a KV head's
bit is set to 0 exactly when the sum of the `heads_per_kv` query-head bits of
its group (`head_mask[q_start:q_end]`) is zero. -/
def kv_head_mask_of (head_mask : List Int) (num_kv_heads heads_per_kv : Nat) :
    List Int :=
  (List.range num_kv_heads).map (fun kv_idx =>
    if ((head_mask.drop (kv_idx * heads_per_kv)).take heads_per_kv).sum = 0
    then 0 else 1)

/-- The per-head zeroing loop shared by `q_mask_hook` / `kv_mask_hook`
(mask_llama.py:149-184) and the wrapper-level attention hook
(llama.py:56-61): the flat last dimension, viewed as one `head_dim`-wide
chunk per mask entry, has a chunk zeroed when its mask bit is 0. -/
def zeroMaskedHeads : List Int → Nat → List Int → List Int
  | [], _, xs => xs
  | m :: ms, head_dim, xs =>
    (if m = 0 then (xs.take head_dim).map (fun _ => 0) else xs.take head_dim)
      ++ zeroMaskedHeads ms head_dim (xs.drop head_dim)

/-- `register_mask` (mask_llama.py:58-61): the forward pre-hook multiplies
the module input elementwise by the mask (broadcast over the last
dimension); one last-dimension row is modelled. -/
def mask_mul (mask row : List Int) : List Int :=
  List.zipWith (fun x m => x * m) row mask

/-- `swiglu_hook` (`register_swiglu_mask`, mask_llama.py:74-90): with
`pruning_indices = ~neuron_mask.bool()`, if anything is to be pruned the
hook zeroes output position `i` when `pruning_indices[i]` holds — or, when
the output width differs from the mask length, when
`pruning_indices[i % len(mask)]` holds; otherwise the output is returned
untouched. -/
def swiglu_hook (neuron_mask : List Int) (outputs : List Int) : List Int :=
  if 0 < neuron_mask.countP (fun m => m == 0) then
    if outputs.length ≠ neuron_mask.length then
      (List.range outputs.length).map (fun i =>
        if neuron_mask.getD (i % neuron_mask.length) 0 = 0 then 0
        else outputs.getD i 0)
    else
      List.zipWith (fun x m => if m = 0 then 0 else x) outputs neuron_mask
  else outputs

/-- The kinds of interception handles `mask_llama` can install on one layer. -/
inductive HookKind where
  | swigluGate
  | swigluUp
  | downProjMask
  | qProjMask
  | kProjMask
  | vProjMask
  | dropLayer
  | dropMLP
  | dropAttention
deriving DecidableEq, Repr

/-- The interception handles `mask_llama` (mask_llama.py:231-268) installs on
one layer, in registration order: `register_swiglu_mask` hooks on
`gate_proj`, `up_proj`, `down_proj`, then `register_gqa_mask` hooks on
`q_proj`, `k_proj`, `v_proj`, then — by the `if`/`elif`/`elif` chain on the
mask-row sums — at most one drop-style hook (whole layer, MLP only, or
attention only). -/
def layer_hooks (neuron_row head_row : List Int) : List HookKind :=
  [HookKind.swigluGate, HookKind.swigluUp, HookKind.downProjMask,
    HookKind.qProjMask, HookKind.kProjMask, HookKind.vProjMask]
    ++ (if neuron_row.sum = 0 ∧ head_row.sum = 0 then [HookKind.dropLayer]
        else if neuron_row.sum = 0 then [HookKind.dropMLP]
        else if head_row.sum = 0 then [HookKind.dropAttention]
        else [])

/-- The neuron-mask resize block of `mask_llama` (mask_llama.py:219-229):
when the mask width differs from the actual FFN dimension, a WARNING is
printed (the `Bool` component) and each row is rebuilt as an all-ones row of
the actual width whose first `min` entries are copied from the original row. -/
def resize_neuron_mask (neuron_mask : List (List Int)) (actual_ffn_dim : Nat) :
    Bool × List (List Int) :=
  if rowWidth neuron_mask = actual_ffn_dim then (false, neuron_mask)
  else
    let min_dim := min (rowWidth neuron_mask) actual_ffn_dim
    (true, neuron_mask.map (fun row =>
      row.take min_dim ++ List.replicate (actual_ffn_dim - min_dim) 1))

/-! ### Wrapper-level masking — embedded from `src/llama.py` -/

/-- `attention_hook` (`get_attention_hook`, llama.py:22-75), on one
position's flat hidden vector.  The hook returns the output unmodified when
the layer index is out of range or the module has more heads than the mask
has columns; the `try`/`except` that wraps the body absorbs the reshape
error raised when the hidden width is not divisible by the head count
(llama.py:72-74), again returning the output unmodified.  Otherwise each
head's slice is zeroed when its mask bit is 0. -/
def attention_hook (head_mask : List (List Int)) (layer_idx num_heads : Nat)
    (output : List Int) : List Int :=
  if head_mask.length ≤ layer_idx then output
  else if rowWidth head_mask < num_heads then output
  else if num_heads = 0 ∨ output.length % num_heads ≠ 0 then output
  else zeroMaskedHeads ((head_mask.getD layer_idx []).take num_heads)
    (output.length / num_heads) output

/-- State of a `LlamaSuperNetMixin` wrapper plus its base model
(llama.py:127-145): the hooks currently installed on the base model, the
wrapper's stored `self.handles` list, and a fresh-id counter standing for
hook-object identity. -/
structure SuperNetState where
  installed : List Nat
  handles : List Nat
  next_id : Nat
deriving DecidableEq, Repr

/-- `select_sub_network` (llama.py:135-139): `mask_llama` registers
`num_hooks` fresh hooks on the base model and the wrapper stores the new
handle list — the previously stored handles are overwritten without
`remove()` ever being called on them. -/
def select_sub_network (st : SuperNetState) (num_hooks : Nat) : SuperNetState :=
  let new_handles := (List.range num_hooks).map (fun j => st.next_id + j)
  { installed := st.installed ++ new_handles
    handles := new_handles
    next_id := st.next_id + num_hooks }

/-- `reset_super_network` (llama.py:141-145): every stored handle is
`remove()`d from the base model and the stored list is cleared. -/
def reset_super_network (st : SuperNetState) : SuperNetState :=
  { installed := st.installed.filter (fun h => decide (h ∉ st.handles))
    handles := []
    next_id := st.next_id }

/-! ### Distillation loss — embedded from `src/train_supernet.py`

The `torch.nn.functional` primitives are modelled over `ℚ` with the
transcendental kernels `exp`/`log` abstracted as function parameters, so all
definitions stay executable. -/

/-- `F.softmax` along the class dimension of one row. -/
def softmaxF (exp : ℚ → ℚ) (xs : List ℚ) : List ℚ :=
  let exps := xs.map exp
  exps.map (fun e => e / exps.sum)

/-- `F.cross_entropy` with class-probability targets: per sample,
minus the target-weighted sum of log-softmax of the input, mean-reduced
over the batch. -/
def cross_entropy_soft (exp log : ℚ → ℚ) (input target : List (List ℚ)) : ℚ :=
  ((input.zip target).map (fun p =>
      -(List.zipWith (fun t s => t * log s) p.2 (softmaxF exp p.1)).sum)).sum
    / ((input.zip target).length : ℚ)

/-- `F.cross_entropy` with class-index targets: per sample, minus the
log-softmax of the input at the target index, mean-reduced over the batch. -/
def cross_entropy_hard (exp log : ℚ → ℚ) (input : List (List ℚ))
    (target : List Nat) : ℚ :=
  ((input.zip target).map (fun p =>
      -(log ((softmaxF exp p.1).getD p.2 0)))).sum
    / ((input.zip target).length : ℚ)

/-- `F.mse_loss` with default mean reduction: mean over all elements of the
squared differences. -/
def mse_loss (input target : List (List ℚ)) : ℚ :=
  (((input.zip target).map (fun p =>
      List.zipWith (fun a b => (a - b) ^ 2) p.1 p.2)).flatten.sum)
    / ((((input.zip target).map (fun p =>
      List.zipWith (fun a b => (a - b) ^ 2) p.1 p.2)).flatten.length : ℚ))

/-- Elementwise `logits / temperature`. -/
def div_logits (x : List (List ℚ)) (temperature : ℚ) : List (List ℚ) :=
  x.map (fun r => r.map (fun v => v / temperature))

/-- `kd_loss` (train_supernet.py:78-90): MSE between student and teacher
logits for regression; otherwise `temperature ** 2` times the cross-entropy
of the temperature-scaled student logits against the softmax-softened
temperature-scaled teacher logits, plus the cross-entropy of the raw student
logits against the ground-truth labels.  (`detach()` on the teacher logits
only stops gradients and does not change the value.) -/
def kd_loss (exp log : ℚ → ℚ) (is_regression : Bool)
    (student_logits teacher_logits : List (List ℚ)) (targets : List Nat)
    (temperature : ℚ) : ℚ :=
  if is_regression then mse_loss student_logits teacher_logits
  else
    let kd := cross_entropy_soft exp log (div_logits student_logits temperature)
      ((div_logits teacher_logits temperature).map (softmaxF exp))
    let predictive_loss := cross_entropy_hard exp log student_logits targets
    temperature ^ 2 * kd + predictive_loss

/-- The distillation loss as worded by the spec: temperature² times the soft
cross-entropy between the temperature-scaled student logits and the
teacher's temperature-softened distribution, plus the raw cross-entropy of
the student logits against the ground-truth labels; mean-squared error
between student and teacher logits for regression targets. -/
def kd_loss_spec (exp log : ℚ → ℚ) (is_regression : Bool)
    (student_logits teacher_logits : List (List ℚ)) (targets : List Nat)
    (temperature : ℚ) : ℚ :=
  if is_regression then mse_loss student_logits teacher_logits
  else
    temperature ^ 2
        * cross_entropy_soft exp log (div_logits student_logits temperature)
          ((div_logits teacher_logits temperature).map (softmaxF exp))
      + cross_entropy_hard exp log student_logits targets

/-! ### Generic fold/index helpers -/

theorem getD_zip {α β : Type} (d₁ : α) (d₂ : β) :
    ∀ (l₁ : List α) (l₂ : List β) (i : Nat), i < (l₁.zip l₂).length →
      (l₁.zip l₂).getD i (d₁, d₂) = (l₁.getD i d₁, l₂.getD i d₂)
  | [], _, i, h => by simp at h
  | _ :: _, [], i, h => by simp at h
  | _ :: _, _ :: _, 0, _ => rfl
  | _ :: as, _ :: bs, (i+1), h => by
    simp only [List.zip_cons_cons, List.getD_cons_succ]
    exact getD_zip d₁ d₂ as bs i (by simpa using h)

theorem map_sum_eq_range_sum {α : Type} (f : α → Nat) (d : α) (l : List α) :
    (l.map f).sum = ∑ i ∈ Finset.range l.length, f (l.getD i d) := by
  induction l with
  | nil => simp
  | cons x xs ih =>
    rw [List.map_cons, List.sum_cons, ih, List.length_cons, Finset.sum_range_succ']
    simp [Nat.add_comm]

theorem foldl_add_eq_sum {α : Type} (f : α → Nat) (l : List α) (a : Nat) :
    l.foldl (fun acc x => acc + f x) a = a + (l.map f).sum := by
  induction l generalizing a with
  | nil => simp
  | cons x xs ih => rw [List.foldl_cons, ih, List.map_cons, List.sum_cons]; omega

theorem foldl_add2_eq_sum {α : Type} (f g : α → Nat) (l : List α) (a : Nat) :
    l.foldl (fun acc x => acc + f x + g x) a = a + (l.map (fun x => f x + g x)).sum := by
  induction l generalizing a with
  | nil => simp
  | cons x xs ih => rw [List.foldl_cons, ih, List.map_cons, List.sum_cons]; omega

/-- C6: per layer, the MAC estimate is heads × (3·seq·hidden·head_dim +
2·seq²·head_dim + seq·head_dim·hidden) plus units × 2·seq·hidden, summed
across all layers; a layer with zero heads or zero units contributes zero
for that term (immediate since the term is multiplied by the count). -/
theorem compute_mac_closed_form
    (num_heads_per_layer num_neurons_per_layer : List Nat)
    (seq_len hidden_size attention_head_size : Nat)
    (hlen : num_heads_per_layer.length = num_neurons_per_layer.length) :
    compute_mac num_heads_per_layer num_neurons_per_layer
        seq_len hidden_size attention_head_size
      = ∑ i ∈ Finset.range num_heads_per_layer.length,
          (num_heads_per_layer.getD i 0
              * (3 * seq_len * hidden_size * attention_head_size
                  + 2 * seq_len * seq_len * attention_head_size
                  + seq_len * attention_head_size * hidden_size)
            + num_neurons_per_layer.getD i 0 * (2 * seq_len * hidden_size)) := by
  have hz : (num_heads_per_layer.zip num_neurons_per_layer).length
      = num_heads_per_layer.length := by
    simp [List.length_zip, hlen]
  unfold compute_mac
  simp only [foldl_add2_eq_sum, Nat.zero_add]
  rw [map_sum_eq_range_sum _ (0, 0), hz]
  refine Finset.sum_congr rfl (fun i hi => ?_)
  rw [getD_zip 0 0 _ _ i (by rw [hz]; exact Finset.mem_range.mp hi)]
  simp [mac_per_head, mac_per_neuron]

theorem compute_mac_closed_form_witness :
    ([2, 0] : List Nat).length = ([3, 1] : List Nat).length ∧
    compute_mac [2, 0] [3, 1] 2 4 5
      = ∑ i ∈ Finset.range 2,
          (([2, 0] : List Nat).getD i 0 * (3 * 2 * 4 * 5 + 2 * 2 * 2 * 5 + 2 * 5 * 4)
            + ([3, 1] : List Nat).getD i 0 * (2 * 2 * 4)) :=
  ⟨rfl, compute_mac_closed_form [2, 0] [3, 1] 2 4 5 rfl⟩

/-- C5: for configurations where every layer has positive head and unit
counts, `compute_parameters` equals the closed-form family formulas: the
bias-free gated (llama) family uses hidden·head_dim·heads·3 + hidden² plus
2·hidden of scale-only norms for attention and 3·hidden·units plus 2·hidden
for feed-forward; any other family (bias-and-affine-norm) uses
(hidden·head_dim + head_dim)·heads·3 + hidden² + hidden plus 2·(2·hidden)
for attention and 2·hidden·units + hidden + units plus 2·(2·hidden) for
feed-forward; the total is the sum over all layers. -/
theorem compute_parameters_closed_form
    (dmodel dhead : Nat) (hs us : List Nat) (model_type : String)
    (hmt : model_type ≠ "llama")
    (hlen : hs.length = us.length)
    (hpos : ∀ p ∈ hs.zip us, 0 < p.1 ∧ 0 < p.2) :
    compute_parameters dmodel dhead hs us "llama"
      = ∑ i ∈ Finset.range hs.length,
          ((dmodel * dhead * hs.getD i 0 * 3 + dmodel * dmodel + 2 * dmodel)
            + (3 * dmodel * us.getD i 0 + 2 * dmodel))
    ∧ compute_parameters dmodel dhead hs us model_type
      = ∑ i ∈ Finset.range hs.length,
          (((dmodel * dhead + dhead) * hs.getD i 0 * 3 + dmodel * dmodel + dmodel
              + 2 * (2 * dmodel))
            + (2 * dmodel * us.getD i 0 + dmodel + us.getD i 0
              + 2 * (2 * dmodel))) := by
  have hz : (hs.zip us).length = hs.length := by
    simp [List.length_zip, hlen]
  constructor <;>
  · unfold compute_parameters
    simp only [foldl_add2_eq_sum, Nat.zero_add]
    rw [map_sum_eq_range_sum _ (0, 0), hz]
    refine Finset.sum_congr rfl (fun i hi => ?_)
    have hilt : i < (hs.zip us).length := by
      rw [hz]; exact Finset.mem_range.mp hi
    have hmem : (hs.zip us).getD i (0, 0) ∈ hs.zip us := by
      rw [List.getD_eq_getElem _ _ hilt]
      exact List.getElem_mem hilt
    obtain ⟨h1, h2⟩ := hpos _ hmem
    rw [getD_zip 0 0 _ _ i hilt] at h1 h2 ⊢
    simp only at h1 h2
    simp at h1 h2
    simp [h1, h2, hmt]
    ring

theorem compute_parameters_closed_form_witness :
    ("bert" : String) ≠ "llama" ∧
    ([2, 1] : List Nat).length = ([3, 4] : List Nat).length ∧
    (∀ p ∈ ([2, 1] : List Nat).zip ([3, 4] : List Nat), 0 < p.1 ∧ 0 < p.2) ∧
    (compute_parameters 8 4 [2, 1] [3, 4] "llama"
      = ∑ i ∈ Finset.range 2,
          ((8 * 4 * ([2, 1] : List Nat).getD i 0 * 3 + 8 * 8 + 2 * 8)
            + (3 * 8 * ([3, 4] : List Nat).getD i 0 + 2 * 8))
    ∧ compute_parameters 8 4 [2, 1] [3, 4] "bert"
      = ∑ i ∈ Finset.range 2,
          (((8 * 4 + 4) * ([2, 1] : List Nat).getD i 0 * 3 + 8 * 8 + 8 + 2 * (2 * 8))
            + (2 * 8 * ([3, 4] : List Nat).getD i 0 + 8 + ([3, 4] : List Nat).getD i 0
              + 2 * (2 * 8)))) :=
  ⟨by decide, rfl, by decide,
    compute_parameters_closed_form 8 4 [2, 1] [3, 4] "bert" (by decide) rfl (by decide)⟩

/-- C1: evaluation of the code at the failing input.  Two consecutive
`select_sub_network` calls (each registering 2 hooks) on a fresh wrapper:
the claim says the first call's handles are revoked before the second
installs its own, but the code only overwrites `self.handles`, so hooks 0
and 1 from the first call are still installed on the base model after the
second call. -/
theorem select_sub_network_keeps_stale_handles :
    (select_sub_network (select_sub_network ⟨[], [], 0⟩ 2) 2).handles = [2, 3]
  ∧ 0 ∈ (select_sub_network (select_sub_network ⟨[], [], 0⟩ 2) 2).installed
  ∧ 1 ∈ (select_sub_network (select_sub_network ⟨[], [], 0⟩ 2) 2).installed
  ∧ (select_sub_network (select_sub_network ⟨[], [], 0⟩ 2) 2).installed
      = [0, 1, 2, 3] := by
  decide

/-- C8: `reset_super_network` clears the stored handle list, removes every
stored handle from the base model, is idempotent, and is a state-preserving
no-op when no handles are held. -/
theorem reset_super_network_spec (st : SuperNetState) :
    (reset_super_network st).handles = []
  ∧ (∀ h ∈ st.handles, h ∉ (reset_super_network st).installed)
  ∧ reset_super_network (reset_super_network st) = reset_super_network st
  ∧ (st.handles = [] → reset_super_network st = st) := by
  obtain ⟨inst, hs, nid⟩ := st
  refine ⟨rfl, ?_, ?_, ?_⟩
  · intro h hmem hcontra
    simp only [reset_super_network] at hcontra
    rw [List.mem_filter] at hcontra
    exact absurd hmem (by simpa using hcontra.2)
  · simp [reset_super_network, List.filter_eq_self]
  · intro hh
    simp only at hh
    subst hh
    simp [reset_super_network, List.filter_eq_self]

theorem reset_super_network_spec_witness :
    (reset_super_network ⟨[7], [], 3⟩).handles = []
  ∧ (∀ h ∈ ([] : List Nat), h ∉ (reset_super_network ⟨[7], [], 3⟩).installed)
  ∧ reset_super_network (reset_super_network ⟨[7], [], 3⟩)
      = reset_super_network ⟨[7], [], 3⟩
  ∧ (([] : List Nat) = [] → reset_super_network ⟨[7], [], 3⟩ = ⟨[7], [], 3⟩) :=
  reset_super_network_spec ⟨[7], [], 3⟩

/-- C10: the wrapper-level attention hook returns the module output
completely unmodified — zeroing no head and raising no error — whenever the
layer index is not below the head mask's row count or the module reports
more heads than the mask has columns. -/
theorem attention_hook_skips_out_of_range
    (head_mask : List (List Int)) (layer_idx num_heads : Nat)
    (output : List Int)
    (h : head_mask.length ≤ layer_idx ∨ rowWidth head_mask < num_heads) :
    attention_hook head_mask layer_idx num_heads output = output := by
  unfold attention_hook
  split_ifs with h1 h2 h3
  · rfl
  · rfl
  · rfl
  · rcases h with h | h
    · exact absurd h h1
    · exact absurd h h2

theorem attention_hook_skips_out_of_range_witness :
    (([[1]] : List (List Int)).length ≤ 5 ∨ rowWidth [[1]] < 1)
  ∧ attention_hook [[1]] 5 1 [3, 4] = [3, 4] :=
  ⟨Or.inl (by decide),
    attention_hook_skips_out_of_range [[1]] 5 1 [3, 4] (Or.inl (by decide))⟩

/-- C2 counterexample: the masking engine does not fail on a shape
mismatch.  A 1-layer neuron mask of width 2 against an actual FFN width of
3 is resized (first two entries copied, the rest padded with ones) and the
engine proceeds; and the wrapper-level attention hook, given a hidden width
of 3 that 2 heads cannot divide, absorbs the reshape error and returns the
output unmodified instead of raising. -/
theorem shape_mismatch_not_fatal :
    resize_neuron_mask [[0, 0]] 3 = (true, [[0, 0, 1]])
  ∧ attention_hook [[1, 0]] 0 2 [5, 7, 9] = [5, 7, 9] := by
  decide

/-- C4 counterexample: for a layer whose attention row and feed-forward row
are both all-zero, it is not the case that only the whole-layer pass-through
interception is installed — the numeric mask hooks (for example the one on
`q_proj`) are installed on the layer as well. -/
theorem drop_layer_regime_not_exclusive :
    HookKind.dropLayer ∈ layer_hooks [0] [0]
  ∧ HookKind.qProjMask ∈ layer_hooks [0] [0]
  ∧ layer_hooks [0] [0] ≠ [HookKind.dropLayer] := by
  decide

theorem sum_eq_zero_iff_of_binary :
    ∀ (l : List Int), (∀ x ∈ l, x = 0 ∨ x = 1) → (l.sum = 0 ↔ ∀ x ∈ l, x = 0)
  | [], _ => by simp
  | a :: xs, h => by
    have ha := h a (List.mem_cons_self a xs)
    have hxs : ∀ x ∈ xs, x = 0 ∨ x = 1 := fun x hx =>
      h x (List.mem_cons_of_mem a hx)
    have hnn : 0 ≤ xs.sum := List.sum_nonneg (fun x hx => by
      rcases hxs x hx with rfl | rfl <;> norm_num)
    have ih := sum_eq_zero_iff_of_binary xs hxs
    simp only [List.sum_cons, List.mem_cons]
    constructor
    · intro hsum
      rcases ha with rfl | rfl
      · have hz : xs.sum = 0 := by omega
        rintro x (rfl | hx)
        · rfl
        · exact ih.mp hz x hx
      · exact absurd hsum (by omega)
    · intro hall
      have h0 : a = 0 := hall a (Or.inl rfl)
      have hz : xs.sum = 0 := ih.mpr (fun x hx => hall x (Or.inr hx))
      omega

/-- C3: for a binary head mask over a grouped-query attention layer, the
derived KV mask bit of group `kv` is 1 iff some query head in the group's
slice `head_mask[q_start:q_end]` has bit 1; in particular, when every query
head sharing the KV head is masked off, the KV bit is 0. -/
theorem kv_head_mask_bit_iff (head_mask : List Int)
    (num_kv_heads heads_per_kv kv : Nat)
    (hbin : ∀ x ∈ head_mask, x = 0 ∨ x = 1)
    (hkv : kv < num_kv_heads) :
    ((kv_head_mask_of head_mask num_kv_heads heads_per_kv).getD kv 0 = 1
      ↔ ∃ x ∈ (head_mask.drop (kv * heads_per_kv)).take heads_per_kv, x = 1)
  ∧ ((∀ x ∈ (head_mask.drop (kv * heads_per_kv)).take heads_per_kv, x = 0)
      → (kv_head_mask_of head_mask num_kv_heads heads_per_kv).getD kv 0 = 0) := by
  have hslice_bin :
      ∀ x ∈ (head_mask.drop (kv * heads_per_kv)).take heads_per_kv,
        x = 0 ∨ x = 1 :=
    fun x hx => hbin x (List.mem_of_mem_drop (List.mem_of_mem_take hx))
  have hiff := sum_eq_zero_iff_of_binary _ hslice_bin
  have hget : (kv_head_mask_of head_mask num_kv_heads heads_per_kv).getD kv 0
      = (if ((head_mask.drop (kv * heads_per_kv)).take heads_per_kv).sum = 0
         then (0 : Int) else 1) := by
    unfold kv_head_mask_of
    rw [List.getD_eq_getElem _ _ (by simpa using hkv)]
    simp
  refine ⟨⟨?_, ?_⟩, ?_⟩
  · intro h1
    by_contra hno
    push_neg at hno
    have hall : ∀ x ∈ (head_mask.drop (kv * heads_per_kv)).take heads_per_kv,
        x = 0 := fun x hx => (hslice_bin x hx).resolve_right (hno x hx)
    rw [hget, if_pos (hiff.mpr hall)] at h1
    exact absurd h1 (by norm_num)
  · rintro ⟨x, hx, rfl⟩
    rw [hget, if_neg]
    intro hz
    exact absurd (hiff.mp hz 1 hx) (by norm_num)
  · intro hall
    rw [hget, if_pos (hiff.mpr hall)]

theorem kv_head_mask_bit_iff_witness :
    (∀ x ∈ ([0, 0, 1, 0] : List Int), x = 0 ∨ x = 1) ∧ 1 < 2 ∧
    ((((kv_head_mask_of [0, 0, 1, 0] 2 2).getD 1 0 = 1
        ↔ ∃ x ∈ (([0, 0, 1, 0] : List Int).drop (1 * 2)).take 2, x = 1)
      ∧ ((∀ x ∈ (([0, 0, 1, 0] : List Int).drop (1 * 2)).take 2, x = 0)
        → (kv_head_mask_of [0, 0, 1, 0] 2 2).getD 1 0 = 0))) :=
  ⟨by decide, by decide, kv_head_mask_bit_iff [0, 0, 1, 0] 2 2 1 (by decide) (by decide)⟩

theorem swiglu_hook_ones (n : Nat) (outputs : List Int) :
    swiglu_hook (List.replicate n 1) outputs = outputs := by
  have h0 : (List.replicate n (1 : Int)).countP (fun m => m == 0) = 0 := by
    rw [List.countP_eq_zero]
    intro a ha
    rw [List.eq_of_mem_replicate ha]
    decide
  simp [swiglu_hook, h0]

theorem mask_mul_ones :
    ∀ (row : List Int) (n : Nat), row.length = n →
      mask_mul (List.replicate n 1) row = row
  | [], _, _ => by simp [mask_mul]
  | x :: xs, n, h => by
    subst h
    simp only [List.length_cons, List.replicate_succ, mask_mul,
      List.zipWith_cons_cons, mul_one]
    exact congrArg (x :: ·) (mask_mul_ones xs xs.length rfl)

theorem zeroMaskedHeads_ones (m hd : Nat) :
    ∀ xs : List Int, zeroMaskedHeads (List.replicate m 1) hd xs = xs := by
  induction m with
  | zero => intro xs; rfl
  | succ k ih =>
    intro xs
    rw [List.replicate_succ]
    simp only [zeroMaskedHeads]
    rw [if_neg (by norm_num), ih, List.take_append_drop]

theorem kv_head_mask_of_ones (nkv hpk : Nat) (hpk0 : 0 < hpk) :
    kv_head_mask_of (List.replicate (nkv * hpk) 1) nkv hpk
      = List.replicate nkv 1 := by
  unfold kv_head_mask_of
  have hcong : ∀ kv ∈ List.range nkv,
      (if (((List.replicate (nkv * hpk) (1 : Int)).drop (kv * hpk)).take
            hpk).sum = 0 then (0 : Int) else 1) = 1 := by
    intro kv hkv
    rw [List.mem_range] at hkv
    rw [List.drop_replicate, List.take_replicate, List.sum_replicate]
    rw [if_neg]
    intro hcond
    rw [nsmul_eq_mul, mul_one] at hcond
    have h2 : kv * hpk + hpk ≤ nkv * hpk := by
      have := Nat.mul_le_mul_right (k := hpk) (Nat.succ_le_of_lt hkv)
      simpa [Nat.succ_mul] using this
    have h3 : 0 < min hpk (nkv * hpk - kv * hpk) := by
      rw [Nat.lt_min]
      exact ⟨hpk0, by omega⟩
    rw [Int.natCast_eq_zero] at hcond
    omega
  rw [List.map_congr_left hcong, List.map_const', List.length_range]

theorem layer_hooks_ones (n m : Nat) (hn : 0 < n) (hm : 0 < m) :
    layer_hooks (List.replicate n 1) (List.replicate m 1)
      = [HookKind.swigluGate, HookKind.swigluUp, HookKind.downProjMask,
         HookKind.qProjMask, HookKind.kProjMask, HookKind.vProjMask] := by
  have hs : ∀ k : Nat, (List.replicate k (1 : Int)).sum = (k : Int) := by
    intro k
    rw [List.sum_replicate, nsmul_eq_mul, mul_one]
  unfold layer_hooks
  rw [hs, hs, if_neg, if_neg, if_neg]
  · simp
  · rw [Int.natCast_eq_zero]; omega
  · rw [Int.natCast_eq_zero]; omega
  · rintro ⟨h1, -⟩
    rw [Int.natCast_eq_zero] at h1
    omega

/-- C7: with all-ones neuron and head masks, every interception the masking
engine installs is numerically the identity — the SwiGLU gate/up hook
returns its output untouched, the `down_proj` pre-hook multiplication by the
mask returns the row unchanged, the per-head zeroing of the q/k/v hooks
leaves the projection output unchanged (the derived KV mask is again all
ones), and no drop-style interception is installed — so the masked model's
forward pass computes exactly what the unmasked base model computes. -/
theorem all_ones_masks_identity (n m hd nkv hpk : Nat)
    (outputs row xs : List Int)
    (hn : 0 < n) (hm : 0 < m) (hpk0 : 0 < hpk) (hrow : row.length = n) :
    swiglu_hook (List.replicate n 1) outputs = outputs
  ∧ mask_mul (List.replicate n 1) row = row
  ∧ zeroMaskedHeads (List.replicate m 1) hd xs = xs
  ∧ kv_head_mask_of (List.replicate (nkv * hpk) 1) nkv hpk
      = List.replicate nkv 1
  ∧ layer_hooks (List.replicate n 1) (List.replicate m 1)
      = [HookKind.swigluGate, HookKind.swigluUp, HookKind.downProjMask,
         HookKind.qProjMask, HookKind.kProjMask, HookKind.vProjMask] :=
  ⟨swiglu_hook_ones n outputs, mask_mul_ones row n hrow,
    zeroMaskedHeads_ones m hd xs, kv_head_mask_of_ones nkv hpk hpk0,
    layer_hooks_ones n m hn hm⟩

theorem all_ones_masks_identity_witness :
    0 < 2 ∧ ([8, 9] : List Int).length = 2 ∧
    (swiglu_hook (List.replicate 2 1) [5, 6, 7] = [5, 6, 7]
    ∧ mask_mul (List.replicate 2 1) [8, 9] = [8, 9]
    ∧ zeroMaskedHeads (List.replicate 2 1) 1 [1, 2, 3] = [1, 2, 3]
    ∧ kv_head_mask_of (List.replicate (2 * 2) 1) 2 2 = List.replicate 2 1
    ∧ layer_hooks (List.replicate 2 1) (List.replicate 2 1)
        = [HookKind.swigluGate, HookKind.swigluUp, HookKind.downProjMask,
           HookKind.qProjMask, HookKind.kProjMask, HookKind.vProjMask]) :=
  ⟨by decide, by decide,
    all_ones_masks_identity 2 2 1 2 2 [5, 6, 7] [8, 9] [1, 2, 3]
      (by decide) (by decide) (by decide) (by decide)⟩

/-- C4 (amended): the drop-style interceptions are mutually exclusive and
chosen by the stated precedence — whole-layer pass-through when both binary
mask rows are all-zero, feed-forward pass-through when only the feed-forward
row is all-zero, attention pass-through when only the attention row is
all-zero, and none otherwise — but the six numeric mask-multiplication hooks
are installed on the layer's projections in every regime, not only in the
last one. -/
theorem layer_hooks_regime_precedence (neuron_row head_row : List Int)
    (hbn : ∀ x ∈ neuron_row, x = 0 ∨ x = 1)
    (hbh : ∀ x ∈ head_row, x = 0 ∨ x = 1) :
    layer_hooks neuron_row head_row
      = [HookKind.swigluGate, HookKind.swigluUp, HookKind.downProjMask,
         HookKind.qProjMask, HookKind.kProjMask, HookKind.vProjMask]
        ++ (if (∀ x ∈ neuron_row, x = 0) ∧ (∀ x ∈ head_row, x = 0) then
              [HookKind.dropLayer]
            else if ∀ x ∈ neuron_row, x = 0 then [HookKind.dropMLP]
            else if ∀ x ∈ head_row, x = 0 then [HookKind.dropAttention]
            else []) := by
  unfold layer_hooks
  simp only [sum_eq_zero_iff_of_binary neuron_row hbn,
    sum_eq_zero_iff_of_binary head_row hbh]

theorem layer_hooks_regime_precedence_witness :
    (∀ x ∈ ([0, 0] : List Int), x = 0 ∨ x = 1) ∧
    (∀ x ∈ ([1, 0] : List Int), x = 0 ∨ x = 1) ∧
    layer_hooks [0, 0] [1, 0]
      = [HookKind.swigluGate, HookKind.swigluUp, HookKind.downProjMask,
         HookKind.qProjMask, HookKind.kProjMask, HookKind.vProjMask]
        ++ (if (∀ x ∈ ([0, 0] : List Int), x = 0)
              ∧ (∀ x ∈ ([1, 0] : List Int), x = 0) then
              [HookKind.dropLayer]
            else if ∀ x ∈ ([0, 0] : List Int), x = 0 then [HookKind.dropMLP]
            else if ∀ x ∈ ([1, 0] : List Int), x = 0 then
              [HookKind.dropAttention]
            else []) :=
  ⟨by decide, by decide,
    layer_hooks_regime_precedence [0, 0] [1, 0] (by decide) (by decide)⟩

/-- C2 (amended): the engine never fails on a neuron-mask width mismatch —
it logs a warning and resizes: every resized row has the actual FFN width,
agrees with the original row below `min(mask width, actual width)`, and is
padded with ones above it; and the wrapper-level attention hook absorbs a
reshape error (head count not dividing the output width) by returning the
output unmodified instead of raising. -/
theorem resize_and_absorb (nm : List (List Int)) (dim i j : Nat)
    (hm2 : List (List Int)) (li nh : Nat) (out : List Int)
    (hrect : ∀ row ∈ nm, row.length = rowWidth nm)
    (hne : rowWidth nm ≠ dim)
    (hi : i < nm.length) (hj : j < dim)
    (habs : out.length % nh ≠ 0) :
    (resize_neuron_mask nm dim).1 = true
  ∧ (resize_neuron_mask nm dim).2.length = nm.length
  ∧ ((resize_neuron_mask nm dim).2.getD i []).length = dim
  ∧ ((resize_neuron_mask nm dim).2.getD i []).getD j 0
      = (if j < min (rowWidth nm) dim then (nm.getD i []).getD j 0 else 1)
  ∧ attention_hook hm2 li nh out = out := by
  have habsorb : attention_hook hm2 li nh out = out := by
    unfold attention_hook
    split_ifs with h1 h2 h3
    · rfl
    · rfl
    · rfl
    · push_neg at h3
      exact absurd h3.2 habs
  unfold resize_neuron_mask
  rw [if_neg hne]
  simp only
  set md := min (rowWidth nm) dim with hmd
  have hmem : nm.getD i [] ∈ nm := by
    rw [List.getD_eq_getElem _ _ hi]
    exact List.getElem_mem hi
  have hrowlen : (nm.getD i []).length = rowWidth nm := hrect _ hmem
  have hmd_le_row : md ≤ (nm.getD i []).length := by
    rw [hrowlen]; exact min_le_left _ _
  have hmd_le_dim : md ≤ dim := min_le_right _ _
  have hrowi : (nm.map (fun row => row.take md
        ++ List.replicate (dim - md) 1)).getD i []
      = (nm.getD i []).take md ++ List.replicate (dim - md) (1 : Int) := by
    rw [List.getD_eq_getElem _ _ (by simpa using hi),
      List.getElem_map, List.getD_eq_getElem _ _ hi]
  have htakelen : ((nm.getD i []).take md).length = md := by
    rw [List.length_take]
    omega
  refine ⟨by trivial, by simp, ?_, ?_, habsorb⟩
  · rw [hrowi]
    simp only [List.length_append, htakelen, List.length_replicate]
    omega
  · rw [hrowi]
    have hjlen : j < ((nm.getD i []).take md
        ++ List.replicate (dim - md) (1 : Int)).length := by
      simp only [List.length_append, htakelen, List.length_replicate]
      omega
    rw [List.getD_eq_getElem _ _ hjlen]
    by_cases hjm : j < md
    · rw [if_pos hjm, List.getElem_append_left (by omega), List.getElem_take]
      exact (List.getD_eq_getElem _ _ (by omega)).symm
    · rw [if_neg hjm, List.getElem_append_right (by omega)]
      simp

theorem resize_and_absorb_witness :
    (∀ row ∈ ([[0, 0], [1, 1]] : List (List Int)), row.length = rowWidth [[0, 0], [1, 1]])
  ∧ rowWidth [[0, 0], [1, 1]] ≠ 3 ∧ 0 < 2 ∧ 2 < 3 ∧ (3 : Nat) % 2 ≠ 0
  ∧ ((resize_neuron_mask [[0, 0], [1, 1]] 3).1 = true
    ∧ (resize_neuron_mask [[0, 0], [1, 1]] 3).2.length
        = ([[0, 0], [1, 1]] : List (List Int)).length
    ∧ ((resize_neuron_mask [[0, 0], [1, 1]] 3).2.getD 0 []).length = 3
    ∧ ((resize_neuron_mask [[0, 0], [1, 1]] 3).2.getD 0 []).getD 2 0
        = (if 2 < min (rowWidth [[0, 0], [1, 1]]) 3 then
            (([[0, 0], [1, 1]] : List (List Int)).getD 0 []).getD 2 0 else 1)
    ∧ attention_hook [[1, 0]] 0 2 [5, 7, 9] = [5, 7, 9]) :=
  ⟨by decide, by decide, by decide, by decide, by decide,
    resize_and_absorb [[0, 0], [1, 1]] 3 0 2 [[1, 0]] 0 2 [5, 7, 9]
      (by decide) (by decide) (by decide) (by decide) (by decide)⟩

/-- C9: the knowledge-distillation loss computed by `kd_loss` coincides,
for both the classification and the regression branch, with the formula the
spec states: temperature² times the soft cross-entropy of the
temperature-scaled student logits against the teacher's temperature-softened
distribution plus the raw cross-entropy against the ground-truth labels, and
the mean-squared error between student and teacher logits respectively. -/
theorem kd_loss_matches_spec (exp log : ℚ → ℚ) (is_regression : Bool)
    (student_logits teacher_logits : List (List ℚ)) (targets : List Nat)
    (temperature : ℚ) :
    kd_loss exp log is_regression student_logits teacher_logits targets
        temperature
      = kd_loss_spec exp log is_regression student_logits teacher_logits
          targets temperature := by
  cases is_regression <;> rfl

end PLMPruning
